import Mathlib

/-!
Verification development for the IAM join method of `lib/auth/iam_join.go`:
challenge-bound STS `GetCallerIdentity` request validation, identity
resolution, and allow-rule matching.

Go strings are embedded as Lean `String` (a wrapper around `List Char`); all
string operations used by the code are defined below over the underlying
character lists so that every definition is executable.  Fallible Go calls
returning `(T, error)` are embedded as `Except`.  External collaborators
(the HTTP stdlib request reader, the JSON decoder, the HTTP client, the
token store, the gRPC stream and the certificate issuer) are parameters of
the functions that consume them, mirroring their interface types in the
source.
-/

namespace TeleportIAM

/-- The error classes produced by `gravitational/trace` that this file
distinguishes: `trace.AccessDenied`, `trace.BadParameter` and `trace.Wrap`
of a foreign (stdlib / AWS SDK) error.  `trace.Wrap` applied to an error
that already carries one of these classes preserves it, so wrapping at
propagation sites is the identity in this embedding. -/
inductive JoinError where
  | accessDenied (msg : String) : JoinError
  | badParameter (msg : String) : JoinError
  | wrapped (msg : String) : JoinError
deriving DecidableEq, Repr

instance {ε α : Type} [DecidableEq ε] [DecidableEq α] : DecidableEq (Except ε α) := fun x y =>
  match x, y with
  | .error e1, .error e2 => decidable_of_iff (e1 = e2) ⟨fun h => h ▸ rfl, Except.error.inj⟩
  | .ok a1, .ok a2 => decidable_of_iff (a1 = a2) ⟨fun h => h ▸ rfl, Except.ok.inj⟩
  | .error _, .ok _ => isFalse fun h => Except.noConfusion h
  | .ok _, .error _ => isFalse fun h => Except.noConfusion h

/-! ## Constants of `iam_join.go` -/

def expectedSTSIdentityRequestBody : String := "Action=GetCallerIdentity&Version=2011-06-15"

def stsHost : String := "sts.amazonaws.com"

def challengeHeaderKey : String := "X-Teleport-Challenge"

def normalizedChallengeHeaderKey : String := "x-teleport-challenge"

def authHeaderKey : String := "Authorization"

def JoinMethodIAM : String := "iam"

/-! ## String helpers

Executable embeddings of the Go string operations used by the source,
defined over the character list underlying a `String`. -/

/-- ASCII lowering of a string (`Char.toLower` per character); used to model
the case-insensitive canonical-key lookup of `http.Header.Get`. -/
def lowerStr (s : String) : String := String.mk (s.data.map Char.toLower)

/-- `strings.Split` for a one-character separator, on character lists:
splitting never drops empty fields and the empty input gives one empty
field, exactly as in Go. -/
def splitOnChar (sep : Char) : List Char → List (List Char)
  | [] => [[]]
  | c :: r =>
    match splitOnChar sep r with
    | [] => [[]]
    | t :: ts => if c = sep then [] :: t :: ts else (c :: t) :: ts

/-- `http.Header.Get`: the first header whose name equals the key up to
ASCII case, or the empty string when there is none. -/
def headerGet (headers : List (String × String)) (key : String) : String :=
  match headers.find? (fun kv => lowerStr kv.1 == lowerStr key) with
  | some kv => kv.2
  | none => ""

/-! ## Model of the Go `regexp` engine, on the fragment this file exercises

`arnMatches` builds the anchored pattern `"^" + p + "$"` by textual
replacement and hands it to `regexp.MatchString`; the authorization-header
regular expression `signedHeadersRe` is embedded separately as an
operational parse below.  The engine model covers the syntax reachable from
translated ARN patterns: literal characters, `.`, a postfix `*`, and
`( … )` groups; a pattern using any other metacharacter of the engine is
treated as failing to compile (such characters are outside the modelled
fragment and unreachable from the translation or the stated claims).  With
the engine's default flags `.` matches any character EXCEPT newline (the
DotNL flag is off in `regexp.MatchString`); `anyc` models exactly that. -/

inductive Rx where
  | emp : Rx
  | eps : Rx
  | char : Char → Rx
  | anyc : Rx
  | alt : Rx → Rx → Rx
  | seq : Rx → Rx → Rx
  | star : Rx → Rx
deriving DecidableEq, Repr

def nullable : Rx → Bool
  | .emp => false
  | .eps => true
  | .char _ => false
  | .anyc => false
  | .alt r1 r2 => nullable r1 || nullable r2
  | .seq r1 r2 => nullable r1 && nullable r2
  | .star _ => true

def rderiv : Rx → Char → Rx
  | .emp, _ => .emp
  | .eps, _ => .emp
  | .char c, a => if a = c then .eps else .emp
  | .anyc, a => if a = '\n' then .emp else .eps
  | .alt r1 r2, a => .alt (rderiv r1 a) (rderiv r2 a)
  | .seq r1 r2, a =>
    if nullable r1 then .alt (.seq (rderiv r1 a) r2) (rderiv r2 a)
    else .seq (rderiv r1 a) r2
  | .star r, a => .seq (rderiv r a) (.star r)

/-- Whole-string matching by character derivatives. -/
def rmatch : Rx → List Char → Bool
  | r, [] => nullable r
  | r, a :: s => rmatch (rderiv r a) s

/-- Engine metacharacters whose syntax the model does not implement; a
pattern containing one fails to compile in the model. -/
def isParserMeta (c : Char) : Bool :=
  c = '+' || c = '?' || c = '[' || c = ']' || c = '\x7b' || c = '\x7d' ||
  c = '^' || c = '$' || c = '|' || c = '\\'

/-- Recursive-descent compilation of a (non-anchored) pattern body: a
sequence of atoms, each a literal, `.`, or parenthesised group, optionally
followed by `*`.  A dangling `*`, an unbalanced parenthesis or an
unsupported metacharacter is a compile failure, as in the engine.  The
`Nat` argument is recursion fuel; any value exceeding the input length is
enough. -/
def parseSeq : Nat → List Char → Except Unit (Rx × List Char)
  | 0, _ => .error ()
  | _ + 1, [] => .ok (.eps, [])
  | fuel + 1, c :: rest =>
    if c = ')' then .ok (.eps, c :: rest)
    else if c = '*' then .error ()
    else if c = '(' then
      match parseSeq fuel rest with
      | .error _ => .error ()
      | .ok (inner, rest1) =>
        match rest1 with
        | ')' :: '*' :: rest2 =>
          match parseSeq fuel rest2 with
          | .error _ => .error ()
          | .ok (tail, rest3) => .ok (.seq (.star inner) tail, rest3)
        | ')' :: rest2 =>
          match parseSeq fuel rest2 with
          | .error _ => .error ()
          | .ok (tail, rest3) => .ok (.seq inner tail, rest3)
        | _ => .error ()
    else if isParserMeta c then .error ()
    else if rest.head? = some '*' then
      match parseSeq fuel rest.tail with
      | .error _ => .error ()
      | .ok (tail, rest3) =>
        .ok (.seq (.star (if c = '.' then Rx.anyc else Rx.char c)) tail, rest3)
    else
      match parseSeq fuel rest with
      | .error _ => .error ()
      | .ok (tail, rest3) =>
        .ok (.seq (if c = '.' then Rx.anyc else Rx.char c) tail, rest3)

/-- `regexp.MatchString pat s` for the anchored patterns `"^" ++ body ++ "$"`
this code constructs: compile the body and test a whole-string match.  A
pattern of any other shape is not built by `arnMatches` and is left outside
the model (compile failure). -/
def regexpMatchString (pat : List Char) (s : List Char) : Except Unit Bool :=
  match pat with
  | [] => .error ()
  | c :: rest =>
    if c = '^' then
      if rest.getLast? = some '$' then
        match parseSeq rest.length rest.dropLast with
        | .ok (r, []) => .ok (rmatch r s)
        | _ => .error ()
      else .error ()
    else .error ()

/-! ## `arnMatches` -/

/-- `strings.ReplaceAll pattern "*" ".*"`. -/
def replaceStar : List Char → List Char
  | [] => []
  | c :: r => if c = '*' then '.' :: '*' :: replaceStar r else c :: replaceStar r

/-- `strings.ReplaceAll pattern "?" "."`. -/
def replaceQm : List Char → List Char
  | [] => []
  | c :: r => if c = '?' then '.' :: replaceQm r else c :: replaceQm r

/-- The two textual replacements of `arnMatches`, in source order. -/
def translateBody (p : List Char) : List Char := replaceQm (replaceStar p)

/-- The full pattern `"^" + pattern + "$"` built by `arnMatches`. -/
def translateArnPattern (p : List Char) : List Char := '^' :: (translateBody p ++ ['$'])

/-- `arnMatches pattern arn`: textual wildcard-to-regex replacement,
anchoring, and a `regexp.MatchString` call; a compile failure surfaces as
the wrapped engine error. -/
def arnMatches (pattern arn : String) : Except JoinError Bool :=
  match regexpMatchString (translateArnPattern pattern.data) arn.data with
  | .ok matched => .ok matched
  | .error _ => .error (.wrapped "error parsing regexp")

/-! ## Glob semantics from the specification's words

The specification describes the intended pattern language: `*` matches zero
or more characters, `?` matches exactly one character, matching is anchored
whole-string, and every other character matches only itself literally.
`globMatch` is written from those words (not from the source) to state the
glob claims and to compare against `arnMatches`. -/

/-- `globSuffix f s` holds when `f` accepts some suffix of `s`: the span the
preceding `*` consumes is the dropped part. -/
def globSuffix (f : List Char → Bool) : List Char → Bool
  | [] => f []
  | a :: s2 => f (a :: s2) || globSuffix f s2

/-- Anchored glob matching per the specification's words: `*` matches any
(possibly empty) span, `?` any single character, every other character only
itself. -/
def globMatch : List Char → List Char → Bool
  | [], s => s.isEmpty
  | c :: p, s =>
    if c = '*' then globSuffix (globMatch p) s
    else if c = '?' then
      match s with
      | [] => false
      | _ :: s2 => globMatch p s2
    else
      match s with
      | [] => false
      | c2 :: s2 => c = c2 && globMatch p s2

/-- `globSuffixNoNL f s` holds when `f` accepts some suffix of `s` reached
by dropping only non-newline characters: the spans a translated `*` (the
engine's `.*` under default flags) can consume. -/
def globSuffixNoNL (f : List Char → Bool) : List Char → Bool
  | [] => f []
  | a :: s2 => f (a :: s2) || ((a ≠ '\n') && globSuffixNoNL f s2)

/-- Anchored wildcard matching as `arnMatches` actually implements it: the
wildcards are translated to the engine's `.`, which under the default flags
matches any character EXCEPT newline, so `*` spans zero or more non-newline
characters and `?` exactly one non-newline character, while every other
character of a pattern without further metacharacters matches only itself.
On newline-free inputs this coincides with the specification's `globMatch`
(proved below). -/
def globMatchNoNL : List Char → List Char → Bool
  | [], s => s.isEmpty
  | c :: p, s =>
    if c = '*' then globSuffixNoNL (globMatchNoNL p) s
    else if c = '?' then
      match s with
      | [] => false
      | c2 :: s2 => (c2 ≠ '\n') && globMatchNoNL p s2
    else
      match s with
      | [] => false
      | c2 :: s2 => c = c2 && globMatchNoNL p s2

/-- Metacharacters of the regex engine.  A pattern whose characters avoid
all of these except the two wildcards is translated by `arnMatches` into a
regex with purely literal atoms. -/
def isRegexMeta (c : Char) : Bool :=
  c = '.' || c = '+' || c = '*' || c = '?' || c = '(' || c = ')' ||
  c = '[' || c = ']' || c = '\x7b' || c = '\x7d' || c = '^' || c = '$' ||
  c = '|' || c = '\\'

def allowedPatternChar (c : Char) : Bool := c = '*' || c = '?' || !isRegexMeta c

/-- Patterns built from the two wildcards and non-metacharacter literals. -/
def allowedPattern (s : String) : Prop := ∀ c ∈ s.data, allowedPatternChar c = true

instance (s : String) : Decidable (allowedPattern s) := by
  unfold allowedPattern; infer_instance

/-- The direct compilation of a wildcard pattern: the regex that the
translated pattern body parses to. -/
def globRegex : List Char → Rx
  | [] => .eps
  | c :: p =>
    if c = '*' then .seq (.star .anyc) (globRegex p)
    else if c = '?' then .seq .anyc (globRegex p)
    else .seq (.char c) (globRegex p)

/-! ## Data model -/

/-- The fields of `net/http.Request` this code reads or writes: `Host`,
`Method`, `RequestURI`, the header map, the body bytes, and the `URL`
scheme and host that `parseSTSRequest` overwrites.  The body is carried as
a value; `validateSTSIdentityRequest`'s read-then-restore of the body
stream is therefore effect-free here. -/
structure HttpRequest where
  host : String
  method : String
  requestURI : String
  urlScheme : String
  urlHost : String
  headers : List (String × String)
  body : String
deriving DecidableEq, Repr

/-- The fields of `net/http.Response` this code reads; the body is carried
as a value (the `io.ReadAll` of the live stream cannot fail here). -/
structure HttpResponse where
  statusCode : Nat
  status : String
  body : String
deriving DecidableEq, Repr

/-- `awsIdentity`: the verified identity decoded from the STS response. -/
structure AwsIdentity where
  account : String
  arn : String
deriving DecidableEq, Repr

/-- Inner level of the fixed STS JSON envelope. -/
structure GetCallerIdentityResponseBody where
  getCallerIdentityResult : AwsIdentity
deriving DecidableEq, Repr

/-- `stsIdentityResponse`: the fixed JSON envelope of the
`GetCallerIdentity` call. -/
structure STSIdentityResponse where
  getCallerIdentityResponse : GetCallerIdentityResponseBody
deriving DecidableEq, Repr

/-- The fields of `types.TokenRule` consulted by `checkIAMAllowRules`. -/
structure TokenRule where
  awsAccount : String
  awsARN : String
deriving DecidableEq, Repr

/-- The parts of `types.ProvisionToken` this code consults: the join-method
tag and the ordered allow-rule list. -/
structure ProvisionToken where
  joinMethod : String
  allowRules : List TokenRule
deriving DecidableEq, Repr

/-- `types.RegisterUsingTokenRequest`: the fields this code touches. -/
structure RegisterUsingTokenRequest where
  token : String
  stsIdentityRequest : List UInt8
  remoteAddr : String
deriving DecidableEq, Repr

/-- The certificates returned by the external issuance collaborator. -/
structure Certs where
  payload : String
deriving DecidableEq, Repr

/-! ## `signedHeadersRe` and `validateSTSIdentityRequest`

`signedHeadersRe` is
`^AWS4-HMAC-SHA256 Credential=\S+, SignedHeaders=(\S+), Signature=\S+$`.
Because `\S` excludes exactly the whitespace characters and every literal
space of the expression is fixed, a string matches precisely when it has no
non-space whitespace and splits on spaces into the four tokens
`AWS4-HMAC-SHA256`, `Credential=<c>,`, `SignedHeaders=<h>,` and
`Signature=<g>` with `<c>`, `<h>`, `<g>` nonempty, and the (greedy) group
then captures the maximal `<h>`, i.e. everything strictly between
`SignedHeaders=` and the final comma of its token.  `parseSignedHeaders`
is that characterisation, operationally. -/

/-- A token of shape `pre ++ mid ++ ","` with `mid` nonempty; yields `mid`. -/
def fieldBetween (pre : List Char) (w : List Char) : Option (List Char) :=
  if pre.isPrefixOf w then
    match (w.drop pre.length).getLast? with
    | some ',' =>
      match (w.drop pre.length).dropLast with
      | [] => none
      | mid => some mid
    | _ => none
  else none

/-- A token of shape `pre ++ mid` with `mid` nonempty; yields `mid`. -/
def fieldAfter (pre : List Char) (w : List Char) : Option (List Char) :=
  if pre.isPrefixOf w ∧ pre.length < w.length then some (w.drop pre.length) else none

/-- `signedHeadersRe.FindStringSubmatch auth`, reduced to the captured
`SignedHeaders` group: `some` exactly when the regular expression matches
(`len(matches) ≥ 2` in the source). -/
def parseSignedHeaders (auth : String) : Option String :=
  if auth.data.any (fun c => c = '\t' || c = '\n' || c = '\x0c' || c = '\r') then none
  else
    match splitOnChar ' ' auth.data with
    | [w0, w1, w2, w3] =>
      if w0 = "AWS4-HMAC-SHA256".data then
        match fieldBetween "Credential=".data w1, fieldBetween "SignedHeaders=".data w2,
            fieldAfter "Signature=".data w3 with
        | some _, some sh, some _ => some (String.mk sh)
        | _, _, _ => none
      else none
    | _ => none

/-- `validateSTSIdentityRequest`: the five checks in source order — host,
method, challenge header, signed-header set, body — each failing fast with
its own error.  Error messages carry the same data the Go format strings
interpolate. -/
def validateSTSIdentityRequest (req : HttpRequest) (challenge : String) :
    Except JoinError Unit :=
  if req.host ≠ stsHost then
    .error (.accessDenied ("sts identity request is for unknown host " ++ req.host))
  else if req.method ≠ "POST" then
    .error (.accessDenied ("sts identity request method " ++ req.requestURI ++
      " does not match expected method POST"))
  else if headerGet req.headers challengeHeaderKey ≠ challenge then
    .error (.accessDenied "sts identity request does not include challenge header or it does not match")
  else
    match parseSignedHeaders (headerGet req.headers authHeaderKey) with
    | none => .error (.accessDenied "sts identity request Authorization header is invalid")
    | some signedHeadersString =>
      if ((splitOnChar ';' signedHeadersString.data).map String.mk).contains
          normalizedChallengeHeaderKey = false then
        .error (.accessDenied ("sts identity request auth header " ++
          headerGet req.headers authHeaderKey ++ " does not include " ++
          normalizedChallengeHeaderKey ++ " as a signed header"))
      else if req.body ≠ expectedSTSIdentityRequestBody then
        .error (.badParameter ("sts request body " ++ req.body ++
          " does not equal expected " ++ expectedSTSIdentityRequestBody))
      else .ok ()

/-! ## `parseSTSRequest` -/

/-- `parseSTSRequest`: `http.ReadRequest` (the stdlib reader, passed in as
a capability) followed by unsetting `RequestURI` and forcing the target
URL to `https://sts.amazonaws.com`, whatever the embedded request line
claimed.  A reader failure is wrapped, never repaired. -/
def parseSTSRequest (readRequest : List UInt8 → Except String HttpRequest)
    (req : List UInt8) : Except JoinError HttpRequest :=
  match readRequest req with
  | .error e => .error (.wrapped e)
  | .ok httpReq =>
    .ok { httpReq with requestURI := "", urlScheme := "https", urlHost := stsHost }

/-! ## `executeSTSIdentityRequest` -/

/-- `executeSTSIdentityRequest`: send the validated request through the
injected client, deny on any non-200 status quoting the status and body,
decode the fixed JSON envelope (the `encoding/json` decoder is passed in as
a capability) on 200, and wrap a decode failure. -/
def executeSTSIdentityRequest (decodeIdentity : String → Except String STSIdentityResponse)
    (client : HttpRequest → Except JoinError HttpResponse)
    (req : HttpRequest) : Except JoinError AwsIdentity :=
  match client req with
  | .error e => .error e
  | .ok resp =>
    if resp.statusCode ≠ 200 then
      .error (.accessDenied ("aws sts api returned status: " ++ resp.status ++
        " body: " ++ resp.body))
    else
      match decodeIdentity resp.body with
      | .error e => .error (.wrapped e)
      | .ok identityResponse =>
        .ok identityResponse.getCallerIdentityResponse.getCallerIdentityResult

/-! ## `checkIAMAllowRules` -/

/-- The rule loop of `checkIAMAllowRules`: a set account constraint that
differs skips to the next rule; a set ARN pattern is evaluated with
`arnMatches`, whose error aborts the whole scan wrapped, and whose `false`
skips to the next rule; a rule surviving its set constraints accepts. -/
def checkIAMAllowRulesLoop (identity : AwsIdentity) : List TokenRule → Except JoinError Unit
  | [] => .error (.accessDenied "instance did not match any allow rules")
  | rule :: rest =>
    if 0 < rule.awsAccount.length ∧ rule.awsAccount ≠ identity.account then
      checkIAMAllowRulesLoop identity rest
    else if 0 < rule.awsARN.length then
      match arnMatches rule.awsARN identity.arn with
      | .error e => .error e
      | .ok matched =>
        if matched then .ok () else checkIAMAllowRulesLoop identity rest
    else .ok ()

/-- `checkIAMAllowRules identity provisionToken`. -/
def checkIAMAllowRules (identity : AwsIdentity) (provisionToken : ProvisionToken) :
    Except JoinError Unit :=
  checkIAMAllowRulesLoop identity provisionToken.allowRules

/-- One rule's matching predicate, as the claims state it: each set
constraint must match, an unset constraint matches anything, a set account
constraint is exact equality, and a set ARN constraint holds when
`arnMatches` succeeds with `true`. -/
def ruleMatches (identity : AwsIdentity) (rule : TokenRule) : Bool :=
  (rule.awsAccount.length == 0 || rule.awsAccount == identity.account) &&
  (rule.awsARN.length == 0 ||
    (match arnMatches rule.awsARN identity.arn with
     | .ok b => b
     | .error _ => false))

/-! ## `checkIAMRequest` -/

/-- `(*Server).checkIAMRequest`: token lookup (the cache is passed in as a
capability), join-method gate, parse, validate, resolve, allow-rule match —
strictly in sequence, the first failure propagating. -/
def checkIAMRequest (getToken : String → Except JoinError ProvisionToken)
    (readRequest : List UInt8 → Except String HttpRequest)
    (decodeIdentity : String → Except String STSIdentityResponse)
    (client : HttpRequest → Except JoinError HttpResponse)
    (challenge : String) (req : RegisterUsingTokenRequest) : Except JoinError Unit :=
  match getToken req.token with
  | .error e => .error e
  | .ok provisionToken =>
    if provisionToken.joinMethod ≠ JoinMethodIAM then
      .error (.accessDenied "this token does not support the IAM join method")
    else
      match parseSTSRequest readRequest req.stsIdentityRequest with
      | .error e => .error e
      | .ok identityRequest =>
        match validateSTSIdentityRequest identityRequest challenge with
        | .error e => .error e
        | .ok _ =>
          match executeSTSIdentityRequest decodeIdentity client identityRequest with
          | .error e => .error e
          | .ok identity =>
            match checkIAMAllowRules identity provisionToken with
            | .error e => .error e
            | .ok _ => .ok ()

/-! ## `registerUsingIAMMethod` -/

def base64Alphabet : List Char :=
  "ABCDEFGHIJKLMNOPQRSTUVWXYZabcdefghijklmnopqrstuvwxyz0123456789+/".data

def b64Char (n : Nat) : Char := base64Alphabet.getD n 'A'

/-- `base64.RawStdEncoding.Encode`: standard alphabet, no padding. -/
def base64RawStdEncode : List UInt8 → List Char
  | b1 :: b2 :: b3 :: rest =>
    let n := b1.toNat * 65536 + b2.toNat * 256 + b3.toNat
    b64Char (n / 262144 % 64) :: b64Char (n / 4096 % 64) ::
      b64Char (n / 64 % 64) :: b64Char (n % 64) :: base64RawStdEncode rest
  | [b1, b2] =>
    let n := b1.toNat * 1024 + b2.toNat * 4
    [b64Char (n / 4096 % 64), b64Char (n / 64 % 64), b64Char (n % 64)]
  | [b1] =>
    let n := b1.toNat * 16
    [b64Char (n / 64 % 64), b64Char (n % 64)]
  | [] => []

/-- The challenge string sent to the node: unpadded standard base64 of the
random bytes. -/
def mkChallenge (bs : List UInt8) : String := String.mk (base64RawStdEncode bs)

/-- `(*Server).registerUsingIAMMethod`: read the peer address, generate and
send the challenge, receive the enrollment request, stamp the peer address
on it, run `checkIAMRequest`, and only then hand off to the certificate
issuer and send its output back.  The gRPC stream, entropy source, token
store, HTTP collaborators and issuer are capabilities passed in; stream and
entropy failures are wrapped foreign errors. -/
def registerUsingIAMMethod (getToken : String → Except JoinError ProvisionToken)
    (readRequest : List UInt8 → Except String HttpRequest)
    (decodeIdentity : String → Except String STSIdentityResponse)
    (client : HttpRequest → Except JoinError HttpResponse)
    (registerUsingToken : RegisterUsingTokenRequest → Except JoinError Certs)
    (peerAddr : Option String)
    (randBytes : Except String (List UInt8))
    (sendChallenge : String → Except String Unit)
    (recvReq : Except String RegisterUsingTokenRequest)
    (sendCerts : Certs → Except String Unit) : Except JoinError Unit :=
  match peerAddr with
  | none => .error (.accessDenied "failed to read peer information from gRPC context")
  | some nodeAddress =>
    match randBytes with
    | .error e => .error (.wrapped e)
    | .ok challengeRawBytes =>
      match sendChallenge (mkChallenge challengeRawBytes) with
      | .error e => .error (.wrapped e)
      | .ok _ =>
        match recvReq with
        | .error e => .error (.wrapped e)
        | .ok req0 =>
          match checkIAMRequest getToken readRequest decodeIdentity client
              (mkChallenge challengeRawBytes) { req0 with remoteAddr := nodeAddress } with
          | .error e => .error e
          | .ok _ =>
            match registerUsingToken { req0 with remoteAddr := nodeAddress } with
            | .error e => .error e
            | .ok certs =>
              match sendCerts certs with
              | .error e => .error (.wrapped e)
              | .ok _ => .ok ()

/-! ## Language semantics of the regex model and correctness of `rmatch` -/

/-- The language of a regex, as a predicate on character lists. -/
def LMem : Rx → List Char → Prop
  | .emp, _ => False
  | .eps, s => s = []
  | .char c, s => s = [c]
  | .anyc, s => ∃ c, s = [c] ∧ c ≠ '\n'
  | .alt r1 r2, s => LMem r1 s ∨ LMem r2 s
  | .seq r1 r2, s => ∃ s1 s2, s1 ++ s2 = s ∧ LMem r1 s1 ∧ LMem r2 s2
  | .star r, s => ∃ L : List (List Char), (∀ x ∈ L, LMem r x) ∧ L.flatten = s

theorem LMem_emp (s : List Char) : LMem .emp s ↔ False := Iff.rfl

theorem LMem_eps (s : List Char) : LMem .eps s ↔ s = [] := Iff.rfl

theorem LMem_char (c : Char) (s : List Char) : LMem (.char c) s ↔ s = [c] := Iff.rfl

theorem LMem_anyc (s : List Char) : LMem .anyc s ↔ ∃ c, s = [c] ∧ c ≠ '\n' := Iff.rfl

theorem LMem_alt (r1 r2 : Rx) (s : List Char) :
    LMem (.alt r1 r2) s ↔ LMem r1 s ∨ LMem r2 s := Iff.rfl

theorem LMem_seq (r1 r2 : Rx) (s : List Char) :
    LMem (.seq r1 r2) s ↔ ∃ s1 s2, s1 ++ s2 = s ∧ LMem r1 s1 ∧ LMem r2 s2 := Iff.rfl

theorem LMem_star (r : Rx) (s : List Char) :
    LMem (.star r) s ↔ ∃ L : List (List Char), (∀ x ∈ L, LMem r x) ∧ L.flatten = s := Iff.rfl

theorem nullable_iff (r : Rx) : nullable r = true ↔ LMem r [] := by
  induction r with
  | emp => simp [nullable, LMem_emp]
  | eps => simp [nullable, LMem_eps]
  | char c => simp [nullable, LMem_char]
  | anyc => simp [nullable, LMem_anyc]
  | alt r1 r2 ih1 ih2 => simp [nullable, LMem_alt, ih1, ih2]
  | seq r1 r2 ih1 ih2 =>
    simp only [nullable, Bool.and_eq_true, ih1, ih2, LMem_seq]
    constructor
    · rintro ⟨h1, h2⟩
      exact ⟨[], [], rfl, h1, h2⟩
    · rintro ⟨s1, s2, happ, h1, h2⟩
      rcases List.append_eq_nil.mp happ with ⟨rfl, rfl⟩
      exact ⟨h1, h2⟩
  | star r ih =>
    simp only [nullable, LMem_star, true_iff]
    exact ⟨[], fun x hx => absurd hx (List.not_mem_nil x), rfl⟩

theorem star_cons (r : Rx) (a : Char) (s : List Char) :
    LMem (.star r) (a :: s) ↔
      ∃ s1 s2, s1 ++ s2 = s ∧ LMem r (a :: s1) ∧ LMem (.star r) s2 := by
  constructor
  · rintro ⟨L, hL, hjoin⟩
    induction L generalizing a s with
    | nil => simp at hjoin
    | cons x L ihL =>
      cases x with
      | nil =>
        simp only [List.flatten_cons, List.nil_append] at hjoin
        exact ihL a s (fun y hy => hL y (List.mem_cons_of_mem _ hy)) hjoin
      | cons b xs =>
        simp only [List.flatten_cons, List.cons_append] at hjoin
        obtain ⟨rfl, hrest⟩ := List.cons.inj hjoin
        exact ⟨xs, L.flatten, hrest, hL _ (List.mem_cons_self _ _),
          ⟨L, fun y hy => hL y (List.mem_cons_of_mem _ hy), rfl⟩⟩
  · rintro ⟨s1, s2, happ, h1, ⟨L, hL, hjoin⟩⟩
    refine ⟨(a :: s1) :: L, ?_, ?_⟩
    · intro x hx
      rcases List.mem_cons.mp hx with rfl | hx
      · exact h1
      · exact hL x hx
    · simp [List.flatten_cons, hjoin, happ]

theorem rderiv_iff (r : Rx) (a : Char) (s : List Char) :
    LMem (rderiv r a) s ↔ LMem r (a :: s) := by
  induction r generalizing s with
  | emp => simp [rderiv, LMem_emp]
  | eps => simp [rderiv, LMem_eps, LMem_emp]
  | char c =>
    by_cases hac : a = c
    · subst hac
      simp [rderiv, LMem_char, LMem_eps]
    · simp [rderiv, hac, LMem_char, LMem_emp]
  | anyc =>
    by_cases hn : a = '\n'
    · subst hn
      have hred : rderiv Rx.anyc '\n' = Rx.emp := by decide
      rw [hred, LMem_emp, LMem_anyc]
      simp only [false_iff]
      rintro ⟨c, hc, hcn⟩
      exact hcn ((List.cons.inj hc).1).symm
    · have hred : rderiv Rx.anyc a = Rx.eps := by simp [rderiv, hn]
      rw [hred, LMem_eps, LMem_anyc]
      constructor
      · rintro rfl
        exact ⟨a, rfl, hn⟩
      · rintro ⟨c, hc, _⟩
        exact (List.cons.inj hc).2
  | alt r1 r2 ih1 ih2 => simp [rderiv, LMem_alt, ih1, ih2]
  | seq r1 r2 ih1 ih2 =>
    simp only [rderiv]
    by_cases hn : nullable r1
    · rw [if_pos hn]
      simp only [LMem_alt, LMem_seq]
      constructor
      · rintro (⟨s1, s2, happ, h1, h2⟩ | h)
        · exact ⟨a :: s1, s2, by rw [List.cons_append, happ], (ih1 s1).mp h1, h2⟩
        · exact ⟨[], a :: s, rfl, (nullable_iff r1).mp hn, (ih2 s).mp h⟩
      · rintro ⟨s1, s2, happ, h1, h2⟩
        cases s1 with
        | nil =>
          right
          simp only [List.nil_append] at happ
          exact (ih2 s).mpr (happ ▸ h2)
        | cons b s1 =>
          left
          rw [List.cons_append] at happ
          obtain ⟨rfl, hrest⟩ := List.cons.inj happ
          exact ⟨s1, s2, hrest, (ih1 s1).mpr h1, h2⟩
    · rw [if_neg hn]
      simp only [LMem_seq]
      constructor
      · rintro ⟨s1, s2, happ, h1, h2⟩
        exact ⟨a :: s1, s2, by rw [List.cons_append, happ], (ih1 s1).mp h1, h2⟩
      · rintro ⟨s1, s2, happ, h1, h2⟩
        cases s1 with
        | nil => exact absurd ((nullable_iff r1).mpr h1) hn
        | cons b s1 =>
          rw [List.cons_append] at happ
          obtain ⟨rfl, hrest⟩ := List.cons.inj happ
          exact ⟨s1, s2, hrest, (ih1 s1).mpr h1, h2⟩
  | star r ih =>
    simp only [rderiv, LMem_seq, star_cons]
    constructor
    · rintro ⟨s1, s2, happ, h1, h2⟩
      exact ⟨s1, s2, happ, (ih s1).mp h1, h2⟩
    · rintro ⟨s1, s2, happ, h1, h2⟩
      exact ⟨s1, s2, happ, (ih s1).mpr h1, h2⟩

theorem rmatch_iff : ∀ (s : List Char) (r : Rx), rmatch r s = true ↔ LMem r s
  | [], r => nullable_iff r
  | a :: s, r => (rmatch_iff s (rderiv r a)).trans (rderiv_iff r a s)

theorem flatten_map_singleton : ∀ s : List Char, (s.map (fun c => [c])).flatten = s
  | [] => rfl
  | c :: s => by simp [flatten_map_singleton s]

theorem star_anyc_iff (s : List Char) :
    LMem (.star .anyc) s ↔ ∀ c ∈ s, c ≠ '\n' := by
  constructor
  · rintro ⟨L, hL, hflat⟩ c hc
    rw [← hflat] at hc
    obtain ⟨l, hl, hcl⟩ := List.mem_flatten.mp hc
    obtain ⟨d, hld, hdn⟩ := (LMem_anyc l).mp (hL l hl)
    rw [hld] at hcl
    obtain rfl := List.mem_singleton.mp hcl
    exact hdn
  · intro h
    refine ⟨s.map (fun c => [c]), ?_, flatten_map_singleton s⟩
    intro x hx
    rcases List.mem_map.mp hx with ⟨c, hc, rfl⟩
    exact ⟨c, rfl, h c hc⟩

/-! ## Equivalence of the translated pattern with the glob semantics -/

theorem globSuffix_iff (f : List Char → Bool) :
    ∀ s, globSuffix f s = true ↔ ∃ s1 s2, s1 ++ s2 = s ∧ f s2 = true := by
  intro s
  induction s with
  | nil =>
    simp only [globSuffix]
    constructor
    · intro h
      exact ⟨[], [], rfl, h⟩
    · rintro ⟨s1, s2, happ, h⟩
      rcases List.append_eq_nil.mp happ with ⟨rfl, rfl⟩
      exact h
  | cons a s ih =>
    simp only [globSuffix, Bool.or_eq_true, ih]
    constructor
    · rintro (h | ⟨s1, s2, happ, h⟩)
      · exact ⟨[], a :: s, rfl, h⟩
      · exact ⟨a :: s1, s2, by rw [List.cons_append, happ], h⟩
    · rintro ⟨s1, s2, happ, h⟩
      cases s1 with
      | nil =>
        simp only [List.nil_append] at happ
        exact Or.inl (happ ▸ h)
      | cons b s1 =>
        rw [List.cons_append] at happ
        obtain ⟨rfl, hrest⟩ := List.cons.inj happ
        exact Or.inr ⟨s1, s2, hrest, h⟩

theorem globSuffixNoNL_iff (f : List Char → Bool) :
    ∀ s, globSuffixNoNL f s = true ↔
      ∃ s1 s2, s1 ++ s2 = s ∧ (∀ c ∈ s1, c ≠ '\n') ∧ f s2 = true := by
  intro s
  induction s with
  | nil =>
    simp only [globSuffixNoNL]
    constructor
    · intro h
      exact ⟨[], [], rfl, fun c hc => absurd hc (List.not_mem_nil c), h⟩
    · rintro ⟨s1, s2, happ, _, h⟩
      rcases List.append_eq_nil.mp happ with ⟨rfl, rfl⟩
      exact h
  | cons a s ih =>
    simp only [globSuffixNoNL, Bool.or_eq_true, Bool.and_eq_true, decide_eq_true_eq, ih]
    constructor
    · rintro (h | ⟨ha, s1, s2, happ, hnl, h⟩)
      · exact ⟨[], a :: s, rfl, fun c hc => absurd hc (List.not_mem_nil c), h⟩
      · refine ⟨a :: s1, s2, by rw [List.cons_append, happ], ?_, h⟩
        intro c hc
        rcases List.mem_cons.mp hc with rfl | hc
        · exact ha
        · exact hnl c hc
    · rintro ⟨s1, s2, happ, hnl, h⟩
      cases s1 with
      | nil =>
        left
        simp only [List.nil_append] at happ
        exact happ ▸ h
      | cons b s1 =>
        right
        rw [List.cons_append] at happ
        obtain ⟨rfl, hrest⟩ := List.cons.inj happ
        exact ⟨hnl _ (List.mem_cons_self _ _), s1, s2, hrest,
          fun c hc => hnl c (List.mem_cons_of_mem _ hc), h⟩

theorem globMatch_nil (s : List Char) : globMatch [] s = s.isEmpty := rfl

theorem globMatch_star (p s : List Char) :
    globMatch ('*' :: p) s = globSuffix (globMatch p) s := by
  simp [globMatch]

theorem globMatch_qm_nil (p : List Char) : globMatch ('?' :: p) [] = false := by
  simp [globMatch]

theorem globMatch_qm_cons (p : List Char) (b : Char) (s : List Char) :
    globMatch ('?' :: p) (b :: s) = globMatch p s := by
  simp [globMatch]

theorem globMatch_lit_nil (c : Char) (p : List Char) (h1 : c ≠ '*') (h2 : c ≠ '?') :
    globMatch (c :: p) [] = false := by
  simp [globMatch, h1, h2]

theorem globMatch_lit_cons (c : Char) (p : List Char) (b : Char) (s : List Char)
    (h1 : c ≠ '*') (h2 : c ≠ '?') :
    globMatch (c :: p) (b :: s) = (decide (c = b) && globMatch p s) := by
  simp only [globMatch, if_neg h1, if_neg h2]

theorem globMatchNoNL_nil (s : List Char) : globMatchNoNL [] s = s.isEmpty := rfl

theorem globMatchNoNL_star (p s : List Char) :
    globMatchNoNL ('*' :: p) s = globSuffixNoNL (globMatchNoNL p) s := by
  simp [globMatchNoNL]

theorem globMatchNoNL_qm_nil (p : List Char) : globMatchNoNL ('?' :: p) [] = false := by
  simp [globMatchNoNL]

theorem globMatchNoNL_qm_cons (p : List Char) (b : Char) (s : List Char) :
    globMatchNoNL ('?' :: p) (b :: s) = (decide (b ≠ '\n') && globMatchNoNL p s) := by
  simp [globMatchNoNL]

theorem globMatchNoNL_lit_nil (c : Char) (p : List Char) (h1 : c ≠ '*') (h2 : c ≠ '?') :
    globMatchNoNL (c :: p) [] = false := by
  simp [globMatchNoNL, h1, h2]

theorem globMatchNoNL_lit_cons (c : Char) (p : List Char) (b : Char) (s : List Char)
    (h1 : c ≠ '*') (h2 : c ≠ '?') :
    globMatchNoNL (c :: p) (b :: s) = (decide (c = b) && globMatchNoNL p s) := by
  simp only [globMatchNoNL, if_neg h1, if_neg h2]

theorem globRegex_star (p : List Char) :
    globRegex ('*' :: p) = .seq (.star .anyc) (globRegex p) := by
  simp [globRegex]

theorem globRegex_qm (p : List Char) : globRegex ('?' :: p) = .seq .anyc (globRegex p) := by
  simp [globRegex]

theorem globRegex_lit (c : Char) (p : List Char) (h1 : c ≠ '*') (h2 : c ≠ '?') :
    globRegex (c :: p) = .seq (.char c) (globRegex p) := by
  simp [globRegex, h1, h2]

theorem LMem_globRegex : ∀ (p : List Char) (s : List Char),
    LMem (globRegex p) s ↔ globMatchNoNL p s = true := by
  intro p
  induction p with
  | nil =>
    intro s
    rw [globMatchNoNL_nil]
    cases s with
    | nil => simp [globRegex, LMem_eps]
    | cons a s => simp [globRegex, LMem_eps]
  | cons c p ih =>
    intro s
    by_cases h1 : c = '*'
    · subst h1
      rw [globMatchNoNL_star, globRegex_star, LMem_seq, globSuffixNoNL_iff]
      constructor
      · rintro ⟨s1, s2, happ, hstar, h2⟩
        exact ⟨s1, s2, happ, (star_anyc_iff s1).mp hstar, (ih s2).mp h2⟩
      · rintro ⟨s1, s2, happ, hnl, h⟩
        exact ⟨s1, s2, happ, (star_anyc_iff s1).mpr hnl, (ih s2).mpr h⟩
    · by_cases h2 : c = '?'
      · subst h2
        rw [globRegex_qm, LMem_seq]
        cases s with
        | nil =>
          rw [globMatchNoNL_qm_nil]
          constructor
          · rintro ⟨s1, s2, happ, hd, h⟩
            rw [LMem_anyc] at hd
            obtain ⟨d, rfl, hdn⟩ := hd
            simp at happ
          · intro h
            cases h
        | cons b s =>
          rw [globMatchNoNL_qm_cons]
          simp only [Bool.and_eq_true, decide_eq_true_eq]
          constructor
          · rintro ⟨s1, s2, happ, hd, h⟩
            rw [LMem_anyc] at hd
            obtain ⟨d, rfl, hdn⟩ := hd
            rw [List.cons_append, List.nil_append] at happ
            obtain ⟨hdb, hs⟩ := List.cons.inj happ
            exact ⟨hdb ▸ hdn, (ih s).mp (hs ▸ h)⟩
          · rintro ⟨hb, h⟩
            exact ⟨[b], s, rfl, ⟨b, rfl, hb⟩, (ih s).mpr h⟩
      · rw [globRegex_lit c p h1 h2, LMem_seq]
        cases s with
        | nil =>
          rw [globMatchNoNL_lit_nil c p h1 h2]
          constructor
          · rintro ⟨s1, s2, happ, hc, h⟩
            rw [LMem_char] at hc
            subst hc
            simp at happ
          · intro h
            cases h
        | cons b s =>
          rw [globMatchNoNL_lit_cons c p b s h1 h2]
          constructor
          · rintro ⟨s1, s2, happ, hc, h⟩
            rw [LMem_char] at hc
            subst hc
            rw [List.cons_append, List.nil_append] at happ
            obtain ⟨hcb, hs⟩ := List.cons.inj happ
            simp only [Bool.and_eq_true, decide_eq_true_eq]
            exact ⟨hcb, (ih s).mp (hs ▸ h)⟩
          · intro h
            simp only [Bool.and_eq_true, decide_eq_true_eq] at h
            obtain ⟨rfl, h⟩ := h
            exact ⟨[c], s, rfl, rfl, (ih s).mpr h⟩

theorem rmatch_globRegex (p s : List Char) : rmatch (globRegex p) s = globMatchNoNL p s := by
  have h1 := rmatch_iff s (globRegex p)
  have h2 := LMem_globRegex p s
  cases hg : globMatchNoNL p s with
  | true => exact h1.mpr (h2.mpr hg)
  | false =>
    cases hr : rmatch (globRegex p) s with
    | true => exact absurd (h2.mp (h1.mp hr)) (by simp [hg])
    | false => rfl

theorem globSuffixNoNL_eq (f g : List Char → Bool)
    (hfg : ∀ t, (∀ c ∈ t, c ≠ '\n') → f t = g t) :
    ∀ s, (∀ c ∈ s, c ≠ '\n') → globSuffixNoNL f s = globSuffix g s := by
  intro s
  induction s with
  | nil =>
    intro h
    exact hfg [] h
  | cons a s ihs =>
    intro h
    have ha : a ≠ '\n' := h a (List.mem_cons_self a s)
    have hs : ∀ c ∈ s, c ≠ '\n' := fun c hc => h c (List.mem_cons_of_mem a hc)
    simp only [globSuffixNoNL, globSuffix]
    rw [hfg (a :: s) h, ihs hs]
    simp [ha]

theorem globMatchNoNL_eq_globMatch : ∀ (p s : List Char), (∀ c ∈ s, c ≠ '\n') →
    globMatchNoNL p s = globMatch p s := by
  intro p
  induction p with
  | nil =>
    intro s _
    rfl
  | cons c p ih =>
    intro s hs
    by_cases h1 : c = '*'
    · subst h1
      rw [globMatchNoNL_star, globMatch_star]
      exact globSuffixNoNL_eq (globMatchNoNL p) (globMatch p) ih s hs
    · by_cases h2 : c = '?'
      · subst h2
        cases s with
        | nil => rw [globMatchNoNL_qm_nil, globMatch_qm_nil]
        | cons b s =>
          have hb : b ≠ '\n' := hs b (List.mem_cons_self b s)
          have hs2 : ∀ c ∈ s, c ≠ '\n' := fun c hc => hs c (List.mem_cons_of_mem b hc)
          rw [globMatchNoNL_qm_cons, globMatch_qm_cons, ih s hs2]
          simp [hb]
      · cases s with
        | nil => rw [globMatchNoNL_lit_nil c p h1 h2, globMatch_lit_nil c p h1 h2]
        | cons b s =>
          have hs2 : ∀ d ∈ s, d ≠ '\n' := fun d hd => hs d (List.mem_cons_of_mem b hd)
          rw [globMatchNoNL_lit_cons c p b s h1 h2, globMatch_lit_cons c p b s h1 h2,
            ih s hs2]

/-! ## The translated pattern compiles to the direct glob regex -/

theorem translateBody_nil : translateBody [] = [] := rfl

theorem translateBody_cons (c : Char) (p : List Char) :
    translateBody (c :: p) =
      if c = '*' then '.' :: '*' :: translateBody p
      else if c = '?' then '.' :: translateBody p
      else c :: translateBody p := by
  by_cases h1 : c = '*'
  · subst h1
    simp [translateBody, replaceStar, replaceQm]
  · by_cases h2 : c = '?'
    · subst h2
      simp [translateBody, replaceStar, replaceQm]
    · simp [translateBody, replaceStar, replaceQm, h1, h2]

theorem translateBody_head_ne_star (p : List Char) :
    ∀ t, translateBody p ≠ '*' :: t := by
  cases p with
  | nil => intro t h; exact List.noConfusion h
  | cons c p =>
    intro t
    rw [translateBody_cons]
    by_cases h1 : c = '*'
    · subst h1
      simp
    · by_cases h2 : c = '?'
      · subst h2
        simp
      · simp only [if_neg h1, if_neg h2]
        intro h
        exact h1 (List.cons.inj h).1

theorem translateBody_head_not_star (p : List Char) :
    ¬ ((translateBody p).head? = some '*') := by
  intro h
  cases ht : translateBody p with
  | nil => rw [ht] at h; exact Option.noConfusion h
  | cons d t =>
    rw [ht] at h
    simp only [List.head?] at h
    exact translateBody_head_ne_star p t (by rw [ht, Option.some.inj h])

theorem parseSeq_translate : ∀ (p : List Char) (fuel : Nat),
    (∀ c ∈ p, allowedPatternChar c = true) → (translateBody p).length < fuel →
    parseSeq fuel (translateBody p) = .ok (globRegex p, []) := by
  intro p
  induction p with
  | nil =>
    intro fuel _ hf
    rw [translateBody_nil] at hf ⊢
    cases fuel with
    | zero => exact absurd hf (by simp)
    | succ f => rfl
  | cons c p ih =>
    intro fuel hall hf
    have hc : allowedPatternChar c = true := hall c (List.mem_cons_self c p)
    have hp : ∀ d ∈ p, allowedPatternChar d = true :=
      fun d hd => hall d (List.mem_cons_of_mem c hd)
    rw [translateBody_cons] at hf ⊢
    by_cases h1 : c = '*'
    · subst h1
      rw [if_pos rfl] at hf ⊢
      cases fuel with
      | zero => exact absurd hf (by simp)
      | succ f =>
        have hlen : (translateBody p).length < f := by
          simp only [List.length_cons] at hf
          omega
        simp only [parseSeq, if_neg (by decide : ¬ ('.' : Char) = ')'),
          if_neg (by decide : ¬ ('.' : Char) = '*'),
          if_neg (by decide : ¬ ('.' : Char) = '('),
          if_neg (by decide : ¬ (isParserMeta '.' = true)),
          List.head?, List.tail]
        rw [ih f hp hlen, globRegex_star]
        simp
    · by_cases h2 : c = '?'
      · subst h2
        rw [if_neg (by decide : ¬ ('?' : Char) = '*'), if_pos rfl] at hf ⊢
        cases fuel with
        | zero => exact absurd hf (by simp)
        | succ f =>
          have hlen : (translateBody p).length < f := by
            simp only [List.length_cons] at hf
            omega
          simp only [parseSeq, if_neg (by decide : ¬ ('.' : Char) = ')'),
            if_neg (by decide : ¬ ('.' : Char) = '*'),
            if_neg (by decide : ¬ ('.' : Char) = '('),
            if_neg (by decide : ¬ (isParserMeta '.' = true))]
          rw [if_neg (translateBody_head_not_star p), ih f hp hlen, globRegex_qm]
          simp
      · rw [if_neg h1, if_neg h2] at hf ⊢
        have hm : isRegexMeta c = false := by
          simp only [allowedPatternChar, Bool.or_eq_true, decide_eq_true_eq] at hc
          rcases hc with (h | h) | h
          · exact absurd h h1
          · exact absurd h h2
          · cases hb : isRegexMeta c with
            | false => rfl
            | true => rw [hb] at h; exact absurd h (by decide)
        have hcpar : ¬ (c = ')') := fun hh => absurd (hh ▸ hm) (by decide)
        have hcopen : ¬ (c = '(') := fun hh => absurd (hh ▸ hm) (by decide)
        have hcdot : ¬ (c = '.') := fun hh => absurd (hh ▸ hm) (by decide)
        have hcparse : ¬ (isParserMeta c = true) := by
          intro h
          simp only [isParserMeta, Bool.or_eq_true, decide_eq_true_eq] at h
          rcases h with (((((((((hh | hh) | hh) | hh) | hh) | hh) | hh) | hh) | hh) | hh) <;>
            exact absurd (hh ▸ hm) (by decide)
        cases fuel with
        | zero => exact absurd hf (by simp)
        | succ f =>
          have hlen : (translateBody p).length < f := by
            simp only [List.length_cons] at hf
            omega
          simp only [parseSeq, if_neg hcpar, if_neg h1, if_neg hcopen, if_neg hcparse]
          rw [if_neg (translateBody_head_not_star p), ih f hp hlen,
            globRegex_lit c p h1 h2, if_neg hcdot]

theorem regexpMatchString_translate (p : List Char)
    (h : ∀ c ∈ p, allowedPatternChar c = true) (s : List Char) :
    regexpMatchString (translateArnPattern p) s = .ok (rmatch (globRegex p) s) := by
  rw [translateArnPattern]
  simp only [regexpMatchString, if_pos rfl]
  rw [if_pos (by simp : (translateBody p ++ ['$']).getLast? = some ('$' : Char))]
  have hdrop : (translateBody p ++ ['$']).dropLast = translateBody p := by simp
  rw [hdrop, parseSeq_translate p (translateBody p ++ ['$']).length h (by simp)]
  simp

/-! ## Shared concrete data for witnesses -/

/-- A well-formed authorization header whose signed-header list covers the
challenge header. -/
def sampleAuthHeader : String :=
  "AWS4-HMAC-SHA256 Credential=AKIDEXAMPLE/20211102/us-east-1/sts/aws4_request, SignedHeaders=host;x-amz-date;x-teleport-challenge, Signature=abc123"

/-- A request that passes every check of `validateSTSIdentityRequest`
against the challenge string `"AQID"` (the unpadded base64 of bytes
1, 2, 3). -/
def sampleReq : HttpRequest :=
  { host := stsHost, method := "POST", requestURI := "", urlScheme := "https",
    urlHost := stsHost,
    headers := [(challengeHeaderKey, "AQID"), (authHeaderKey, sampleAuthHeader)],
    body := expectedSTSIdentityRequestBody }

/-! ## Helper lemmas for the claims -/

theorem headerGet_of_absent (headers : List (String × String)) (key : String)
    (h : ∀ kv ∈ headers, lowerStr kv.1 ≠ lowerStr key) : headerGet headers key = "" := by
  unfold headerGet
  rw [List.find?_eq_none.mpr]
  intro kv hkv
  simp only [beq_iff_eq]
  exact h kv hkv

theorem contains_eq_false_of_ci (l : List String)
    (h : ∀ x ∈ l, lowerStr x ≠ normalizedChallengeHeaderKey) :
    l.contains normalizedChallengeHeaderKey = false := by
  cases hb : l.contains normalizedChallengeHeaderKey with
  | false => rfl
  | true =>
    exfalso
    obtain ⟨x, hx, hbeq⟩ := List.contains_iff_exists_mem_beq.mp hb
    obtain rfl := beq_iff_eq.mp hbeq
    exact h _ hx (by decide)

theorem ruleMatches_true_of_pass (identity : AwsIdentity) (rule : TokenRule)
    (hacct : ¬ (0 < rule.awsAccount.length ∧ rule.awsAccount ≠ identity.account))
    (harn : rule.awsARN.length = 0 ∨ arnMatches rule.awsARN identity.arn = .ok true) :
    ruleMatches identity rule = true := by
  unfold ruleMatches
  rw [Bool.and_eq_true]
  constructor
  · rw [Bool.or_eq_true]
    by_cases h0 : rule.awsAccount.length = 0
    · left; exact Nat.beq_eq_true_eq _ _ |>.mpr h0
    · right
      rcases not_and_or.mp hacct with h | h
      · exact absurd (Nat.pos_of_ne_zero h0) h
      · exact beq_iff_eq.mpr (not_not.mp h)
  · rw [Bool.or_eq_true]
    rcases harn with h | h
    · left; exact Nat.beq_eq_true_eq _ _ |>.mpr h
    · right; rw [h]

theorem checkIAMAllowRulesLoop_ok_iff (identity : AwsIdentity) : ∀ rules : List TokenRule,
    (∀ r ∈ rules, 0 < r.awsARN.length → ∃ b, arnMatches r.awsARN identity.arn = .ok b) →
    (checkIAMAllowRulesLoop identity rules = .ok () ↔
      ∃ r ∈ rules, ruleMatches identity r = true) := by
  intro rules
  induction rules with
  | nil =>
    intro _
    simp [checkIAMAllowRulesLoop]
  | cons rule rest ih =>
    intro hcompile
    have hrest := fun r hr => hcompile r (List.mem_cons_of_mem rule hr)
    unfold checkIAMAllowRulesLoop
    by_cases hacct : 0 < rule.awsAccount.length ∧ rule.awsAccount ≠ identity.account
    · rw [if_pos hacct, ih hrest]
      constructor
      · rintro ⟨r, hr, hm⟩
        exact ⟨r, List.mem_cons_of_mem rule hr, hm⟩
      · rintro ⟨r, hr, hm⟩
        rcases List.mem_cons.mp hr with rfl | hr
        · exfalso
          unfold ruleMatches at hm
          simp only [Bool.and_eq_true, Bool.or_eq_true] at hm
          rcases hm.1 with h | h
          · rw [Nat.beq_eq_true_eq] at h
            omega
          · exact hacct.2 (beq_iff_eq.mp h)
        · exact ⟨r, hr, hm⟩
    · rw [if_neg hacct]
      by_cases harn : 0 < rule.awsARN.length
      · rw [if_pos harn]
        obtain ⟨b, hb⟩ := hcompile rule (List.mem_cons_self rule rest) harn
        rw [hb]
        cases b with
        | true =>
          simp only [if_pos]
          constructor
          · intro _
            exact ⟨rule, List.mem_cons_self rule rest,
              ruleMatches_true_of_pass identity rule hacct (Or.inr hb)⟩
          · intro _
            trivial
        | false =>
          simp only [if_neg, Bool.false_eq_true, ite_false]
          rw [ih hrest]
          constructor
          · rintro ⟨r, hr, hm⟩
            exact ⟨r, List.mem_cons_of_mem rule hr, hm⟩
          · rintro ⟨r, hr, hm⟩
            rcases List.mem_cons.mp hr with rfl | hr
            · exfalso
              unfold ruleMatches at hm
              simp only [Bool.and_eq_true, Bool.or_eq_true] at hm
              rcases hm.2 with h | h
              · rw [Nat.beq_eq_true_eq] at h
                omega
              · rw [hb] at h
                simp at h
            · exact ⟨r, hr, hm⟩
      · rw [if_neg harn]
        constructor
        · intro _
          refine ⟨rule, List.mem_cons_self rule rest,
            ruleMatches_true_of_pass identity rule hacct (Or.inl ?_)⟩
          omega
        · intro _
          rfl

/-! ## Claims -/

/-- C1.  Challenge binding of `validateSTSIdentityRequest`: a parsed request
whose challenge header (looked up case-insensitively) carries `c1 ≠ c2`, or
has no challenge header at all, is rejected with `AccessDenied` against
expected challenge `c2`; and the validator accepts only when the header
value exactly equals the expected challenge.  (For the absent-header
conjunct `c2 ≠ ""` is required because a missing header reads as the empty
string; actual challenges are 43-character base64 strings, never empty.) -/
theorem validateSTSIdentityRequest_challenge_binding (req : HttpRequest) (c1 c2 : String) :
    (headerGet req.headers challengeHeaderKey = c1 → c1 ≠ c2 →
      ∃ m, validateSTSIdentityRequest req c2 = .error (.accessDenied m)) ∧
    ((∀ kv ∈ req.headers, lowerStr kv.1 ≠ normalizedChallengeHeaderKey) → c2 ≠ "" →
      ∃ m, validateSTSIdentityRequest req c2 = .error (.accessDenied m)) ∧
    (validateSTSIdentityRequest req c2 = .ok () →
      headerGet req.headers challengeHeaderKey = c2) := by
  refine ⟨?_, ?_, ?_⟩
  · intro hv hne
    unfold validateSTSIdentityRequest
    by_cases hh : req.host ≠ stsHost
    · rw [if_pos hh]; exact ⟨_, rfl⟩
    · rw [if_neg hh]
      by_cases hm2 : req.method ≠ "POST"
      · rw [if_pos hm2]; exact ⟨_, rfl⟩
      · rw [if_neg hm2, if_pos (by rw [hv]; exact hne)]
        exact ⟨_, rfl⟩
  · intro habs hne
    have hv : headerGet req.headers challengeHeaderKey = "" := by
      apply headerGet_of_absent
      intro kv hkv
      have hlow : lowerStr challengeHeaderKey = normalizedChallengeHeaderKey := by decide
      rw [hlow]
      exact habs kv hkv
    unfold validateSTSIdentityRequest
    by_cases hh : req.host ≠ stsHost
    · rw [if_pos hh]; exact ⟨_, rfl⟩
    · rw [if_neg hh]
      by_cases hm2 : req.method ≠ "POST"
      · rw [if_pos hm2]; exact ⟨_, rfl⟩
      · rw [if_neg hm2, if_pos (by rw [hv]; exact fun hx => hne hx.symm)]
        exact ⟨_, rfl⟩
  · intro hok
    by_contra hne
    unfold validateSTSIdentityRequest at hok
    by_cases hh : req.host ≠ stsHost
    · rw [if_pos hh] at hok; cases hok
    · rw [if_neg hh] at hok
      by_cases hm2 : req.method ≠ "POST"
      · rw [if_pos hm2] at hok; cases hok
      · rw [if_neg hm2, if_pos hne] at hok; cases hok

/-- C1 witness: a request bound to `"challenge-aaa"` validated against
`"challenge-bbb"` is denied. -/
theorem validateSTSIdentityRequest_challenge_binding_witness :
    ∃ m, validateSTSIdentityRequest
      { sampleReq with headers := [(challengeHeaderKey, "challenge-aaa")] }
      "challenge-bbb" = .error (.accessDenied m) :=
  (validateSTSIdentityRequest_challenge_binding
    { sampleReq with headers := [(challengeHeaderKey, "challenge-aaa")] }
    "challenge-aaa" "challenge-bbb").1 (by decide) (by decide)

/-- C2.  Signed-header-set check: when the authorization header does not
match the `signedHeadersRe` grammar, or parses but its semicolon-separated
`SignedHeaders` list has no entry equal (even up to ASCII case) to the
challenge header name, `validateSTSIdentityRequest` returns `AccessDenied`
— whatever the rest of the request, including a present and matching
challenge header. -/
theorem validateSTSIdentityRequest_signed_header_set (req : HttpRequest) (c : String) :
    (parseSignedHeaders (headerGet req.headers authHeaderKey) = none →
      ∃ m, validateSTSIdentityRequest req c = .error (.accessDenied m)) ∧
    (∀ sh, parseSignedHeaders (headerGet req.headers authHeaderKey) = some sh →
      (∀ h ∈ (splitOnChar ';' sh.data).map String.mk,
        lowerStr h ≠ normalizedChallengeHeaderKey) →
      ∃ m, validateSTSIdentityRequest req c = .error (.accessDenied m)) := by
  constructor
  · intro hnone
    unfold validateSTSIdentityRequest
    by_cases hh : req.host ≠ stsHost
    · rw [if_pos hh]; exact ⟨_, rfl⟩
    · rw [if_neg hh]
      by_cases hm2 : req.method ≠ "POST"
      · rw [if_pos hm2]; exact ⟨_, rfl⟩
      · rw [if_neg hm2]
        by_cases hch : headerGet req.headers challengeHeaderKey ≠ c
        · rw [if_pos hch]; exact ⟨_, rfl⟩
        · rw [if_neg hch]
          split
          · exact ⟨_, rfl⟩
          · rename_i sh heq
            rw [hnone] at heq
            cases heq
  · intro sh hsome hci
    unfold validateSTSIdentityRequest
    by_cases hh : req.host ≠ stsHost
    · rw [if_pos hh]; exact ⟨_, rfl⟩
    · rw [if_neg hh]
      by_cases hm2 : req.method ≠ "POST"
      · rw [if_pos hm2]; exact ⟨_, rfl⟩
      · rw [if_neg hm2]
        by_cases hch : headerGet req.headers challengeHeaderKey ≠ c
        · rw [if_pos hch]; exact ⟨_, rfl⟩
        · rw [if_neg hch]
          split
          · exact ⟨_, rfl⟩
          · rename_i sh2 heq
            rw [hsome] at heq
            obtain rfl := Option.some.inj heq
            rw [if_pos (contains_eq_false_of_ci _ hci)]
            exact ⟨_, rfl⟩

/-- C2 witness: a matching challenge header cannot save a request whose
signed-header list omits `x-teleport-challenge`. -/
theorem validateSTSIdentityRequest_signed_header_set_witness :
    ∃ m, validateSTSIdentityRequest
      { sampleReq with headers := [(challengeHeaderKey, "AQID"),
        (authHeaderKey, "AWS4-HMAC-SHA256 Credential=AKIDEXAMPLE, SignedHeaders=host;x-amz-date, Signature=abc123")] }
      "AQID" = .error (.accessDenied m) :=
  (validateSTSIdentityRequest_signed_header_set
    { sampleReq with headers := [(challengeHeaderKey, "AQID"),
      (authHeaderKey, "AWS4-HMAC-SHA256 Credential=AKIDEXAMPLE, SignedHeaders=host;x-amz-date, Signature=abc123")] }
    "AQID").2 "host;x-amz-date" (by decide) (by decide)

/-- C3 counterexample: `arnMatches` does not escape regex metacharacters,
so the pattern `"a.c"` — whose `.` the claim says matches only a literal
`.` — matches `"abc"`, while the claimed glob semantics (`globMatch`,
written from the specification's words) rejects it. -/
theorem arnMatches_unescaped_dot :
    arnMatches "a.c" "abc" = .ok true ∧ globMatch "a.c".data "abc".data = false := by
  constructor
  · decide
  · decide

/-- C3 as amended.  For every pattern containing no regex metacharacter
other than the two wildcards, `arnMatches` performs anchored whole-string
matching where each non-wildcard character matches only itself literally,
`*` spans zero or more NON-NEWLINE characters and `?` matches exactly one
NON-NEWLINE character: the wildcards are translated to the engine's `.`,
which with the default flags never matches a newline, so over newline-free
principal strings the claimed `*`/`?` glob semantics holds exactly (second
conjunct).  The translation escapes nothing, so a pattern containing
another metacharacter (e.g. `.`) has it interpreted by the engine instead
of literally (see the counterexample). -/
theorem arnMatches_wildcard_semantics (pattern arn : String) (h : allowedPattern pattern) :
    arnMatches pattern arn = .ok (globMatchNoNL pattern.data arn.data) ∧
    ((∀ c ∈ arn.data, c ≠ '\n') →
      arnMatches pattern arn = .ok (globMatch pattern.data arn.data)) := by
  have hmain : arnMatches pattern arn = .ok (globMatchNoNL pattern.data arn.data) := by
    unfold arnMatches
    rw [regexpMatchString_translate pattern.data h arn.data, rmatch_globRegex]
  refine ⟨hmain, fun hnl => ?_⟩
  rw [hmain, globMatchNoNL_eq_globMatch pattern.data arn.data hnl]

/-- C3 witness: the claim's own example, evaluated through the amended
theorem — the `Prod*` pattern accepts the `ProdWorker` principal and
rejects the `DevWorker` one — and the newline exclusion is real: `?` does
not match a newline character. -/
theorem arnMatches_wildcard_semantics_witness :
    arnMatches "arn:aws:sts::*:assumed-role/Prod*/*"
      "arn:aws:sts::123:assumed-role/ProdWorker/i-abc" = .ok true ∧
    arnMatches "arn:aws:sts::*:assumed-role/Prod*/*"
      "arn:aws:sts::123:assumed-role/DevWorker/i-abc" = .ok false ∧
    arnMatches "?" "\n" = .ok false := by
  refine ⟨?_, ?_, ?_⟩
  · rw [(arnMatches_wildcard_semantics "arn:aws:sts::*:assumed-role/Prod*/*"
      "arn:aws:sts::123:assumed-role/ProdWorker/i-abc" (by decide)).2 (by decide)]
    decide
  · rw [(arnMatches_wildcard_semantics "arn:aws:sts::*:assumed-role/Prod*/*"
      "arn:aws:sts::123:assumed-role/DevWorker/i-abc" (by decide)).2 (by decide)]
    decide
  · rw [(arnMatches_wildcard_semantics "?" "\n" (by decide)).1]
    decide

/-- C4.  The orchestrator runs token-lookup/join-method check, parse,
validate, resolve and allow-rule match strictly in sequence and the first
failure terminates the attempt with that stage's error: each failure
conjunct quantifies over the collaborators of every later stage, so no
later stage's collaborator is ever consulted on a failed attempt; in
particular a `checkIAMRequest` failure makes `registerUsingIAMMethod`
return that error for EVERY certificate issuer, so `RegisterUsingToken` is
invoked only after all stages succeed. -/
theorem checkIAMRequest_pipeline
    (getToken : String → Except JoinError ProvisionToken)
    (readRequest : List UInt8 → Except String HttpRequest)
    (decodeIdentity : String → Except String STSIdentityResponse)
    (client : HttpRequest → Except JoinError HttpResponse)
    (registerUsingToken : RegisterUsingTokenRequest → Except JoinError Certs)
    (challenge : String) (req : RegisterUsingTokenRequest)
    (peerAddr : String) (randBytes : List UInt8)
    (sendChallenge : String → Except String Unit)
    (sendCerts : Certs → Except String Unit) :
    (∀ e, getToken req.token = .error e →
      ∀ rr di cl, checkIAMRequest getToken rr di cl challenge req = .error e) ∧
    (∀ tok, getToken req.token = .ok tok → tok.joinMethod ≠ JoinMethodIAM →
      ∀ rr di cl, checkIAMRequest getToken rr di cl challenge req =
        .error (.accessDenied "this token does not support the IAM join method")) ∧
    (∀ tok e, getToken req.token = .ok tok → tok.joinMethod = JoinMethodIAM →
      parseSTSRequest readRequest req.stsIdentityRequest = .error e →
      ∀ di cl, checkIAMRequest getToken readRequest di cl challenge req = .error e) ∧
    (∀ tok r e, getToken req.token = .ok tok → tok.joinMethod = JoinMethodIAM →
      parseSTSRequest readRequest req.stsIdentityRequest = .ok r →
      validateSTSIdentityRequest r challenge = .error e →
      ∀ di cl, checkIAMRequest getToken readRequest di cl challenge req = .error e) ∧
    (∀ tok r e, getToken req.token = .ok tok → tok.joinMethod = JoinMethodIAM →
      parseSTSRequest readRequest req.stsIdentityRequest = .ok r →
      validateSTSIdentityRequest r challenge = .ok () →
      executeSTSIdentityRequest decodeIdentity client r = .error e →
      checkIAMRequest getToken readRequest decodeIdentity client challenge req = .error e) ∧
    (∀ tok r identity e, getToken req.token = .ok tok → tok.joinMethod = JoinMethodIAM →
      parseSTSRequest readRequest req.stsIdentityRequest = .ok r →
      validateSTSIdentityRequest r challenge = .ok () →
      executeSTSIdentityRequest decodeIdentity client r = .ok identity →
      checkIAMAllowRules identity tok = .error e →
      checkIAMRequest getToken readRequest decodeIdentity client challenge req = .error e) ∧
    (∀ tok r identity, getToken req.token = .ok tok → tok.joinMethod = JoinMethodIAM →
      parseSTSRequest readRequest req.stsIdentityRequest = .ok r →
      validateSTSIdentityRequest r challenge = .ok () →
      executeSTSIdentityRequest decodeIdentity client r = .ok identity →
      checkIAMAllowRules identity tok = .ok () →
      checkIAMRequest getToken readRequest decodeIdentity client challenge req = .ok ()) ∧
    (∀ e req0, sendChallenge (mkChallenge randBytes) = .ok () →
      checkIAMRequest getToken readRequest decodeIdentity client (mkChallenge randBytes)
        { req0 with remoteAddr := peerAddr } = .error e →
      ∀ rut, registerUsingIAMMethod getToken readRequest decodeIdentity client rut
        (some peerAddr) (.ok randBytes) sendChallenge (.ok req0) sendCerts = .error e) ∧
    (∀ req0, sendChallenge (mkChallenge randBytes) = .ok () →
      checkIAMRequest getToken readRequest decodeIdentity client (mkChallenge randBytes)
        { req0 with remoteAddr := peerAddr } = .ok () →
      registerUsingIAMMethod getToken readRequest decodeIdentity client registerUsingToken
        (some peerAddr) (.ok randBytes) sendChallenge (.ok req0) sendCerts =
        (match registerUsingToken { req0 with remoteAddr := peerAddr } with
         | .error e => .error e
         | .ok certs =>
           match sendCerts certs with
           | .error e2 => .error (.wrapped e2)
           | .ok _ => .ok ())) := by
  refine ⟨?_, ?_, ?_, ?_, ?_, ?_, ?_, ?_, ?_⟩
  · intro e hget rr di cl
    simp only [checkIAMRequest, hget]
  · intro tok hget hjm rr di cl
    simp only [checkIAMRequest, hget]
    rw [if_pos hjm]
  · intro tok e hget hjm hparse di cl
    simp only [checkIAMRequest, hget, hparse]
    rw [if_neg (by simp [hjm])]
  · intro tok r e hget hjm hparse hval di cl
    simp only [checkIAMRequest, hget, hparse, hval]
    rw [if_neg (by simp [hjm])]
  · intro tok r e hget hjm hparse hval hexec
    simp only [checkIAMRequest, hget, hparse, hval, hexec]
    rw [if_neg (by simp [hjm])]
  · intro tok r identity e hget hjm hparse hval hexec hrules
    simp only [checkIAMRequest, hget, hparse, hval, hexec, hrules]
    rw [if_neg (by simp [hjm])]
  · intro tok r identity hget hjm hparse hval hexec hrules
    simp only [checkIAMRequest, hget, hparse, hval, hexec, hrules]
    rw [if_neg (by simp [hjm])]
  · intro e req0 hsend hfail rut
    simp only [registerUsingIAMMethod, hsend, hfail]
  · intro req0 hsend hok
    simp only [registerUsingIAMMethod, hsend, hok]

/-- C4 witness: the end-to-end rejection scenario — the token allows only
account `111111111111`, the resolved identity is in `222222222222`, and the
whole handshake terminates with the allow-rule denial for an issuer that
would have returned certificates; issuance is never reached. -/
theorem checkIAMRequest_pipeline_witness :
    registerUsingIAMMethod (fun _ => .ok ⟨"iam", [⟨"111111111111", ""⟩]⟩)
      (fun _ => .ok sampleReq)
      (fun _ => .ok ⟨⟨⟨"222222222222", "arn:aws:sts::222222222222:assumed-role/Node/i-1"⟩⟩⟩)
      (fun _ => .ok ⟨200, "200 OK", "{}"⟩) (fun _ => .ok ⟨"CERT"⟩)
      (some "10.0.0.9:4242") (.ok [1, 2, 3]) (fun _ => .ok ())
      (.ok ⟨"tok-1", [], ""⟩) (fun _ => .ok ()) =
      .error (.accessDenied "instance did not match any allow rules") :=
  (checkIAMRequest_pipeline (fun _ => .ok ⟨"iam", [⟨"111111111111", ""⟩]⟩)
    (fun _ => .ok sampleReq)
    (fun _ => .ok ⟨⟨⟨"222222222222", "arn:aws:sts::222222222222:assumed-role/Node/i-1"⟩⟩⟩)
    (fun _ => .ok ⟨200, "200 OK", "{}"⟩) (fun _ => .ok ⟨"CERT"⟩)
    "" ⟨"tok-1", [], ""⟩ "10.0.0.9:4242" [1, 2, 3] (fun _ => .ok ())
    (fun _ => .ok ())).2.2.2.2.2.2.2.1
    (.accessDenied "instance did not match any allow rules") ⟨"tok-1", [], ""⟩
    (by decide) (by decide) (fun _ => .ok ⟨"CERT"⟩)

/-- C5 counterexample: a token whose first rule carries the non-compiling
pattern `"("` and whose second rule has no constraints set.  By the claim's
own words the second rule matches every identity, so the claim says the
check returns Ok; the code instead aborts on the first rule's compile
error. -/
theorem checkIAMAllowRules_match_without_ok :
    (∃ r ∈ ([⟨"", "("⟩, ⟨"", ""⟩] : List TokenRule),
      ruleMatches ⟨"123456789012", "arn:aws:iam::123456789012:role/r"⟩ r = true) ∧
    checkIAMAllowRules ⟨"123456789012", "arn:aws:iam::123456789012:role/r"⟩
      ⟨"iam", [⟨"", "("⟩, ⟨"", ""⟩]⟩ ≠ .ok () := by
  constructor
  · exact ⟨⟨"", ""⟩, by decide, by decide⟩
  · decide

/-- C5 as amended.  Provided every rule whose principal pattern is set has
a pattern the engine can compile, `checkIAMAllowRules` returns Ok exactly
when some rule matches (unset constraints match anything, a set account
constraint is exact equality); a token with zero rules denies every
identity, and a token with a single fully-unset rule accepts every
identity — the last two unconditionally.  Without the compilation proviso
the equivalence fails: a non-compiling pattern aborts the scan even when a
later rule matches (see the counterexample and the compile-error claim). -/
theorem checkIAMAllowRules_first_match (identity : AwsIdentity) (token : ProvisionToken) :
    ((∀ r ∈ token.allowRules, 0 < r.awsARN.length →
        ∃ b, arnMatches r.awsARN identity.arn = .ok b) →
      (checkIAMAllowRules identity token = .ok () ↔
        ∃ r ∈ token.allowRules, ruleMatches identity r = true)) ∧
    (token.allowRules = [] → checkIAMAllowRules identity token =
      .error (.accessDenied "instance did not match any allow rules")) ∧
    (∀ jm : String, ∀ ident2 : AwsIdentity,
      checkIAMAllowRules ident2 ⟨jm, [⟨"", ""⟩]⟩ = .ok ()) := by
  refine ⟨?_, ?_, ?_⟩
  · intro hcompile
    exact checkIAMAllowRulesLoop_ok_iff identity token.allowRules hcompile
  · intro hnil
    unfold checkIAMAllowRules
    rw [hnil]
    rfl
  · intro jm ident2
    unfold checkIAMAllowRules checkIAMAllowRulesLoop
    rw [if_neg (by simp), if_neg (by simp)]

/-- C5 witness: a rule constraining only the account accepts the matching
identity. -/
theorem checkIAMAllowRules_first_match_witness :
    checkIAMAllowRules ⟨"123456789012", "arn:aws:sts::123456789012:assumed-role/Node/i-1"⟩
      ⟨"iam", [⟨"123456789012", ""⟩]⟩ = .ok () :=
  ((checkIAMAllowRules_first_match
      ⟨"123456789012", "arn:aws:sts::123456789012:assumed-role/Node/i-1"⟩
      ⟨"iam", [⟨"123456789012", ""⟩]⟩).1 (by decide)).mpr
    ⟨⟨"123456789012", ""⟩, by decide, by decide⟩

/-- C6.  Body check of `validateSTSIdentityRequest`: once the host, method,
challenge and signed-header checks pass, the body is compared byte-for-byte
with the fixed `GetCallerIdentity` literal, and any deviation produces a
`BadParameter` error — a class distinct from the `AccessDenied` used by the
four earlier checks. -/
theorem validateSTSIdentityRequest_body_literal (req : HttpRequest) (c : String) (sh : String)
    (hhost : req.host = stsHost) (hmethod : req.method = "POST")
    (hchal : headerGet req.headers challengeHeaderKey = c)
    (hauth : parseSignedHeaders (headerGet req.headers authHeaderKey) = some sh)
    (hsigned : ((splitOnChar ';' sh.data).map String.mk).contains
      normalizedChallengeHeaderKey = true)
    (hbody : req.body ≠ expectedSTSIdentityRequestBody) :
    validateSTSIdentityRequest req c =
      .error (.badParameter ("sts request body " ++ req.body ++
        " does not equal expected " ++ expectedSTSIdentityRequestBody)) ∧
    ∀ m, validateSTSIdentityRequest req c ≠ .error (.accessDenied m) := by
  have hmain : validateSTSIdentityRequest req c =
      .error (.badParameter ("sts request body " ++ req.body ++
        " does not equal expected " ++ expectedSTSIdentityRequestBody)) := by
    unfold validateSTSIdentityRequest
    rw [if_neg (by simp [hhost]), if_neg (by simp [hmethod]), if_neg (by simp [hchal])]
    split
    · rename_i heq
      rw [hauth] at heq
      cases heq
    · rename_i sh2 heq
      rw [hauth] at heq
      obtain rfl := Option.some.inj heq
      rw [if_neg (by rw [hsigned]; simp), if_pos hbody]
  exact ⟨hmain, fun m hcontra => by
    rw [hmain] at hcontra
    exact JoinError.noConfusion (Except.error.inj hcontra)⟩

/-- C6 witness: an extra query parameter in the body of an otherwise
perfect request yields `BadParameter`, not `AccessDenied`. -/
theorem validateSTSIdentityRequest_body_literal_witness :
    validateSTSIdentityRequest
      { sampleReq with body := "Action=GetCallerIdentity&Version=2011-06-15&Extra=1" } "AQID" =
      .error (.badParameter ("sts request body " ++
        "Action=GetCallerIdentity&Version=2011-06-15&Extra=1" ++
        " does not equal expected " ++ expectedSTSIdentityRequestBody)) ∧
    ∀ m, validateSTSIdentityRequest
      { sampleReq with body := "Action=GetCallerIdentity&Version=2011-06-15&Extra=1" } "AQID" ≠
      .error (.accessDenied m) :=
  validateSTSIdentityRequest_body_literal
    { sampleReq with body := "Action=GetCallerIdentity&Version=2011-06-15&Extra=1" }
    "AQID" "host;x-amz-date;x-teleport-challenge"
    (by decide) (by decide) (by decide) (by decide) (by decide) (by decide)

/-- C7.  `validateSTSIdentityRequest` performs its checks in the fixed
order host, method, challenge binding, signed-header set, body, failing
fast with the first violated check's error (each conjunct pins the exact
error while leaving all later fields unconstrained); a wrong host or a
non-POST method is denied regardless of every other field. -/
theorem validateSTSIdentityRequest_check_order (req : HttpRequest) (c : String) :
    (req.host ≠ stsHost →
      validateSTSIdentityRequest req c = .error (.accessDenied
        ("sts identity request is for unknown host " ++ req.host))) ∧
    (req.host = stsHost → req.method ≠ "POST" →
      validateSTSIdentityRequest req c = .error (.accessDenied
        ("sts identity request method " ++ req.requestURI ++
          " does not match expected method POST"))) ∧
    (req.host = stsHost → req.method = "POST" →
      headerGet req.headers challengeHeaderKey ≠ c →
      validateSTSIdentityRequest req c = .error (.accessDenied
        "sts identity request does not include challenge header or it does not match")) ∧
    (req.host = stsHost → req.method = "POST" →
      headerGet req.headers challengeHeaderKey = c →
      parseSignedHeaders (headerGet req.headers authHeaderKey) = none →
      validateSTSIdentityRequest req c = .error (.accessDenied
        "sts identity request Authorization header is invalid")) ∧
    (∀ sh, req.host = stsHost → req.method = "POST" →
      headerGet req.headers challengeHeaderKey = c →
      parseSignedHeaders (headerGet req.headers authHeaderKey) = some sh →
      ((splitOnChar ';' sh.data).map String.mk).contains normalizedChallengeHeaderKey = false →
      validateSTSIdentityRequest req c = .error (.accessDenied
        ("sts identity request auth header " ++ headerGet req.headers authHeaderKey ++
          " does not include " ++ normalizedChallengeHeaderKey ++ " as a signed header"))) ∧
    (∀ sh, req.host = stsHost → req.method = "POST" →
      headerGet req.headers challengeHeaderKey = c →
      parseSignedHeaders (headerGet req.headers authHeaderKey) = some sh →
      ((splitOnChar ';' sh.data).map String.mk).contains normalizedChallengeHeaderKey = true →
      req.body ≠ expectedSTSIdentityRequestBody →
      validateSTSIdentityRequest req c = .error (.badParameter
        ("sts request body " ++ req.body ++ " does not equal expected " ++
          expectedSTSIdentityRequestBody))) ∧
    (∀ sh, req.host = stsHost → req.method = "POST" →
      headerGet req.headers challengeHeaderKey = c →
      parseSignedHeaders (headerGet req.headers authHeaderKey) = some sh →
      ((splitOnChar ';' sh.data).map String.mk).contains normalizedChallengeHeaderKey = true →
      req.body = expectedSTSIdentityRequestBody →
      validateSTSIdentityRequest req c = .ok ()) ∧
    (req.method ≠ "POST" →
      ∃ m, validateSTSIdentityRequest req c = .error (.accessDenied m)) := by
  refine ⟨?_, ?_, ?_, ?_, ?_, ?_, ?_, ?_⟩
  · intro hh
    unfold validateSTSIdentityRequest
    rw [if_pos hh]
  · intro hh hm2
    unfold validateSTSIdentityRequest
    rw [if_neg (by simp [hh]), if_pos hm2]
  · intro hh hm2 hch
    unfold validateSTSIdentityRequest
    rw [if_neg (by simp [hh]), if_neg (by simp [hm2]), if_pos hch]
  · intro hh hm2 hch hnone
    unfold validateSTSIdentityRequest
    rw [if_neg (by simp [hh]), if_neg (by simp [hm2]), if_neg (by simp [hch])]
    split
    · rfl
    · rename_i sh2 heq
      rw [hnone] at heq
      cases heq
  · intro sh hh hm2 hch hsome hcontains
    unfold validateSTSIdentityRequest
    rw [if_neg (by simp [hh]), if_neg (by simp [hm2]), if_neg (by simp [hch])]
    split
    · rename_i heq
      rw [hsome] at heq
      cases heq
    · rename_i sh2 heq
      rw [hsome] at heq
      obtain rfl := Option.some.inj heq
      rw [if_pos hcontains]
  · intro sh hh hm2 hch hsome hcontains hbody
    unfold validateSTSIdentityRequest
    rw [if_neg (by simp [hh]), if_neg (by simp [hm2]), if_neg (by simp [hch])]
    split
    · rename_i heq
      rw [hsome] at heq
      cases heq
    · rename_i sh2 heq
      rw [hsome] at heq
      obtain rfl := Option.some.inj heq
      rw [if_neg (by rw [hcontains]; simp), if_pos hbody]
  · intro sh hh hm2 hch hsome hcontains hbody
    unfold validateSTSIdentityRequest
    rw [if_neg (by simp [hh]), if_neg (by simp [hm2]), if_neg (by simp [hch])]
    split
    · rename_i heq
      rw [hsome] at heq
      cases heq
    · rename_i sh2 heq
      rw [hsome] at heq
      obtain rfl := Option.some.inj heq
      rw [if_neg (by rw [hcontains]; simp), if_neg (by simp [hbody])]
  · intro hm2
    unfold validateSTSIdentityRequest
    by_cases hh : req.host ≠ stsHost
    · rw [if_pos hh]; exact ⟨_, rfl⟩
    · rw [if_neg hh, if_pos hm2]; exact ⟨_, rfl⟩

/-- C7 witness: a request to the wrong host — all other fields perfect —
reports exactly the host error, the first check in the order. -/
theorem validateSTSIdentityRequest_check_order_witness :
    validateSTSIdentityRequest { sampleReq with host := "evil.example.com" } "AQID" =
      .error (.accessDenied ("sts identity request is for unknown host " ++
        "evil.example.com")) :=
  (validateSTSIdentityRequest_check_order
    { sampleReq with host := "evil.example.com" } "AQID").1 (by decide)

/-- C8.  `parseSTSRequest` either propagates the HTTP reader's failure
wrapped (never a best-effort success), or returns the parsed request with
`RequestURI` cleared and the target URL forced to
`https://sts.amazonaws.com` regardless of the destination the embedded
request line claimed. -/
theorem parseSTSRequest_forces_endpoint
    (readRequest : List UInt8 → Except String HttpRequest) (raw : List UInt8) :
    (∀ e, readRequest raw = .error e →
      parseSTSRequest readRequest raw = .error (.wrapped e)) ∧
    (∀ r, readRequest raw = .ok r → parseSTSRequest readRequest raw =
      .ok { r with requestURI := "", urlScheme := "https", urlHost := stsHost }) ∧
    (∀ r2, parseSTSRequest readRequest raw = .ok r2 →
      r2.urlScheme = "https" ∧ r2.urlHost = stsHost) := by
  refine ⟨?_, ?_, ?_⟩
  · intro e h
    simp only [parseSTSRequest, h]
  · intro r h
    simp only [parseSTSRequest, h]
  · intro r2 h
    cases hr : readRequest raw with
    | error e =>
      simp only [parseSTSRequest, hr] at h
      exact Except.noConfusion h
    | ok r =>
      simp only [parseSTSRequest, hr, Except.ok.injEq] at h
      rw [← h]
      exact ⟨rfl, rfl⟩

/-- C8 witness: a reader output claiming an attacker-controlled destination
is forced onto the fixed STS endpoint. -/
theorem parseSTSRequest_forces_endpoint_witness :
    parseSTSRequest (fun _ => .ok ⟨"evil.example.com", "POST", "/steal", "http", "evil.example.com", [], ""⟩) [] =
      .ok ⟨"evil.example.com", "POST", "", "https", "sts.amazonaws.com", [], ""⟩ :=
  (parseSTSRequest_forces_endpoint
    (fun _ => .ok ⟨"evil.example.com", "POST", "/steal", "http", "evil.example.com", [], ""⟩)
    []).2.1 _ rfl

/-- C9.  `executeSTSIdentityRequest` classifies the transport's responses:
any non-200 status is an `AccessDenied` carrying the response status and
body; a 200 response is decoded through the fixed JSON envelope and yields
`GetCallerIdentityResponse.GetCallerIdentityResult`; and a 200 body that
fails to decode yields the wrapped decode error, never an identity. -/
theorem executeSTSIdentityRequest_response_classes
    (decodeIdentity : String → Except String STSIdentityResponse)
    (client : HttpRequest → Except JoinError HttpResponse) (req : HttpRequest) :
    (∀ resp, client req = .ok resp → resp.statusCode ≠ 200 →
      executeSTSIdentityRequest decodeIdentity client req = .error (.accessDenied
        ("aws sts api returned status: " ++ resp.status ++ " body: " ++ resp.body))) ∧
    (∀ resp ir, client req = .ok resp → resp.statusCode = 200 →
      decodeIdentity resp.body = .ok ir →
      executeSTSIdentityRequest decodeIdentity client req =
        .ok ir.getCallerIdentityResponse.getCallerIdentityResult) ∧
    (∀ resp e, client req = .ok resp → resp.statusCode = 200 →
      decodeIdentity resp.body = .error e →
      executeSTSIdentityRequest decodeIdentity client req = .error (.wrapped e)) := by
  refine ⟨?_, ?_, ?_⟩
  · intro resp hcl hcode
    simp only [executeSTSIdentityRequest, hcl]
    rw [if_pos hcode]
  · intro resp ir hcl hcode hdec
    simp only [executeSTSIdentityRequest, hcl, hdec]
    rw [if_neg (by simp [hcode])]
  · intro resp e hcl hcode hdec
    simp only [executeSTSIdentityRequest, hcl, hdec]
    rw [if_neg (by simp [hcode])]

/-- C9 witness: a 403 from the identity endpoint surfaces as `AccessDenied`
quoting the status and body. -/
theorem executeSTSIdentityRequest_response_classes_witness :
    executeSTSIdentityRequest (fun _ => .error "unused")
      (fun _ => .ok ⟨403, "403 Forbidden", "SignatureDoesNotMatch"⟩) sampleReq =
      .error (.accessDenied ("aws sts api returned status: " ++ "403 Forbidden" ++
        " body: " ++ "SignatureDoesNotMatch")) :=
  (executeSTSIdentityRequest_response_classes (fun _ => .error "unused")
    (fun _ => .ok ⟨403, "403 Forbidden", "SignatureDoesNotMatch"⟩) sampleReq).1
    ⟨403, "403 Forbidden", "SignatureDoesNotMatch"⟩ rfl (by decide)

/-- C10.  A rule whose set principal pattern fails to compile — and whose
account constraint does not already skip the rule — aborts
`checkIAMAllowRules` at once with that wrapped compile error, an outcome
that is neither Ok nor `AccessDenied`, for EVERY continuation of the rule
list: a later rule that would have matched is never consulted. -/
theorem checkIAMAllowRules_abort_on_compile_error (identity : AwsIdentity)
    (badRule : TokenRule) (m : String) (jm : String)
    (hacct : badRule.awsAccount = "" ∨ badRule.awsAccount = identity.account)
    (harn : 0 < badRule.awsARN.length)
    (hbad : arnMatches badRule.awsARN identity.arn = .error (.wrapped m)) :
    ∀ rest, checkIAMAllowRules identity ⟨jm, badRule :: rest⟩ = .error (.wrapped m) ∧
      checkIAMAllowRules identity ⟨jm, badRule :: rest⟩ ≠ .ok () ∧
      ∀ m2, checkIAMAllowRules identity ⟨jm, badRule :: rest⟩ ≠
        .error (.accessDenied m2) := by
  intro rest
  have hacct2 : ¬ (0 < badRule.awsAccount.length ∧ badRule.awsAccount ≠ identity.account) := by
    rcases hacct with h | h
    · intro hc
      rw [h] at hc
      exact absurd hc.1 (by decide)
    · intro hc
      exact hc.2 h
  have hmain : checkIAMAllowRules identity ⟨jm, badRule :: rest⟩ = .error (.wrapped m) := by
    unfold checkIAMAllowRules checkIAMAllowRulesLoop
    rw [if_neg hacct2, if_pos harn, hbad]
  refine ⟨hmain, ?_, ?_⟩
  · rw [hmain]
    intro h
    cases h
  · intro m2 h
    rw [hmain] at h
    exact JoinError.noConfusion (Except.error.inj h)

/-- C10 witness: the unbalanced-parenthesis pattern `"("` aborts the scan
with the wrapped compile error even though the very next rule has no
constraints and would match every identity. -/
theorem checkIAMAllowRules_abort_on_compile_error_witness :
    checkIAMAllowRules ⟨"444455556666", "arn:aws:sts::444455556666:assumed-role/X/i-9"⟩
      ⟨"iam", [⟨"", "("⟩, ⟨"", ""⟩]⟩ = .error (.wrapped "error parsing regexp") :=
  (checkIAMAllowRules_abort_on_compile_error
    ⟨"444455556666", "arn:aws:sts::444455556666:assumed-role/X/i-9"⟩
    ⟨"", "("⟩ "error parsing regexp" "iam" (Or.inl rfl) (by decide) (by decide)
    [⟨"", ""⟩]).1

end TeleportIAM
